import Mathlib

/-!
Verification of the indicator/scoring/search core of the signal-generator
repository (`src/lib/signalGenerator.ts`).

Numbers are modelled as exact rationals (the source computes with reals as
far as its specification is concerned).  JavaScript `Math.round` is
`⌊x + 1/2⌋`.  The only square root in the source (the Bollinger-band
standard deviation) is never returned by the functions the claims are
about: it is only *compared* against linear expressions inside
`analyzePattern`, and each such comparison is embedded as the equivalent
squared rational inequality (see the comments at the Bollinger factor).
-/

namespace SignalGen

/-- One OHLC price bar (`PriceData` in the source).  The `open` field is
called `openPrice` because `open` is a Lean keyword. -/
structure PriceData where
  timestamp : ℚ
  openPrice : ℚ
  high : ℚ
  low : ℚ
  close : ℚ
deriving DecidableEq, Repr

instance : Inhabited PriceData := ⟨⟨0, 0, 0, 0, 0⟩⟩

/-- JavaScript `list.slice(-n)` for `n ≥ 1`: the last `n` elements
(the whole list when it is shorter than `n`). -/
def sliceLast (l : List α) (n : ℕ) : List α := l.drop (l.length - n)

/-- JavaScript `Math.round`: round half up. -/
def jsRound (x : ℚ) : ℤ := ⌊x + 1/2⌋

/-- Sum of a list of rationals. -/
def qsum (l : List ℚ) : ℚ := l.sum

/-- `Math.max(...l)` over a nonempty list (`0` on `[]`, which the source
never reaches: JS would yield `-Infinity` there). -/
def maxList : List ℚ → ℚ
  | [] => 0
  | x :: xs => xs.foldl max x

/-- `Math.min(...l)` over a nonempty list (`0` on `[]`, unreachable). -/
def minList : List ℚ → ℚ
  | [] => 0
  | x :: xs => xs.foldl min x

/-! ## IndicatorEngine -/

/-- Close-to-close deltas: `changes[i] = closes[i+1] - closes[i]`. -/
def rsiChanges (prices : List PriceData) : List ℚ :=
  let closes := prices.map (·.close)
  List.zipWith (fun a b => a - b) (closes.drop 1) closes

/-- `changes.filter(c => c > 0).slice(-period)`. -/
def rsiGains (prices : List PriceData) (period : ℕ) : List ℚ :=
  sliceLast ((rsiChanges prices).filter (fun c => 0 < c)) period

/-- `changes.filter(c => c < 0).map(Math.abs).slice(-period)`. -/
def rsiLosses (prices : List PriceData) (period : ℕ) : List ℚ :=
  sliceLast (((rsiChanges prices).filter (fun c => c < 0)).map (fun c => |c|)) period

/-- `avgGain = gains.length > 0 ? sum(gains)/period : 0`. -/
def rsiAvgGain (prices : List PriceData) (period : ℕ) : ℚ :=
  if 0 < (rsiGains prices period).length then qsum (rsiGains prices period) / period else 0

/-- `avgLoss = losses.length > 0 ? sum(losses)/period : 0`. -/
def rsiAvgLoss (prices : List PriceData) (period : ℕ) : ℚ :=
  if 0 < (rsiLosses prices period).length then qsum (rsiLosses prices period) / period else 0

/-- `calculateRSI` from the source (default `period = 14`). -/
def calculateRSI (prices : List PriceData) (period : ℕ := 14) : ℚ :=
  let avgGain := rsiAvgGain prices period
  let avgLoss := rsiAvgLoss prices period
  if avgLoss = 0 then (if 0 < avgGain then 100 else 0)
  else
    let rs := avgGain / avgLoss
    100 - 100 / (1 + rs)

/-- `calculateEMA`: seed at the first element of the slice it is given,
fold forward with multiplier `2/(period+1)`; `0` on the empty list. -/
def calculateEMA (values : List ℚ) (period : ℕ) : ℚ :=
  match values with
  | [] => 0
  | v :: rest =>
      let multiplier : ℚ := 2 / (period + 1)
      rest.foldl (fun ema x => x * multiplier + ema * (1 - multiplier)) v

structure MACDResult where
  macd : ℚ
  signal : ℚ
  histogram : ℚ
deriving DecidableEq, Repr

/-- `calculateMACD`: `macd = EMA12 - EMA26` of the closes; the signal line
is `EMA9` of the series whose `i`-th element is `EMA12 - EMA26` recomputed
from scratch on `closes.slice(0, i+1)`; `histogram = macd - signal`. -/
def calculateMACD (prices : List PriceData) : MACDResult :=
  let closes := prices.map (·.close)
  let ema12 := calculateEMA closes 12
  let ema26 := calculateEMA closes 26
  let macd := ema12 - ema26
  let macdValues := (List.range closes.length).map
    (fun i => calculateEMA (closes.take (i + 1)) 12 - calculateEMA (closes.take (i + 1)) 26)
  let signal := calculateEMA macdValues 9
  { macd := macd, signal := signal, histogram := macd - signal }

structure MovingAverages where
  sma20 : ℚ
  sma50 : ℚ
  ema9 : ℚ
deriving DecidableEq, Repr

/-- `calculateMovingAverages`: `sma20 = sum(closes.slice(-20))/20`,
`sma50 = sum(closes.slice(-50))/min(50, closes.length)`, `ema9 = EMA(closes, 9)`. -/
def calculateMovingAverages (prices : List PriceData) : MovingAverages :=
  let closes := prices.map (·.close)
  { sma20 := qsum (sliceLast closes 20) / 20
    sma50 := qsum (sliceLast closes 50) / (min 50 closes.length : ℕ)
    ema9 := calculateEMA closes 9 }

structure Stochastic where
  k : ℚ
  d : ℚ
deriving DecidableEq, Repr

/-- `calculateStochastic` (default `period = 14`): `%K` from the
high/low range of the last `period` bars (`50` when the range is flat);
`%D = (k + (len>1 ? k : 0) + (len>2 ? k : 0)) / 3`.  The `[]` branch is
unreachable at all call sites (JS would throw there). -/
def calculateStochastic (prices : List PriceData) (period : ℕ := 14) : Stochastic :=
  let recent := sliceLast prices period
  match recent with
  | [] => { k := 0, d := 0 }
  | r0 :: rs =>
      let high := rs.foldl (fun h b => if b.high > h then b.high else h) r0.high
      let low := rs.foldl (fun lo b => if b.low < lo then b.low else lo) r0.low
      let current := ((r0 :: rs).getLast (List.cons_ne_nil r0 rs)).close
      let k := if high = low then 50 else (current - low) / (high - low) * 100
      let d := (k + (if 1 < prices.length then k else 0) + (if 2 < prices.length then k else 0)) / 3
      { k := k, d := d }

/-- `calculateBollingerBands` middle band: `sum(closes.slice(-period))/period`. -/
def bollingerMiddle (prices : List PriceData) (period : ℕ) : ℚ :=
  qsum (sliceLast (prices.map (·.close)) period) / period

/-- Population variance of the last `period` closes around the middle band.
The source's `stdDev` is `√` of this; `upper/lower = middle ± 2·stdDev`. -/
def bollingerVariance (prices : List PriceData) (period : ℕ) : ℚ :=
  let lastCloses := sliceLast (prices.map (·.close)) period
  let middle := qsum lastCloses / period
  qsum (lastCloses.map (fun v => (v - middle) ^ 2)) / period

/-- `a > c·√v` for `c, v ≥ 0`, expressed rationally: `0 < a ∧ c²·v < a²`
(`coefSq` is `c²`).  Used to embed the source's comparisons against the
Bollinger bands without computing the square root. -/
def exceedsSqrt (a coefSq v : ℚ) : Prop := 0 < a ∧ coefSq * v < a ^ 2

instance (a c v : ℚ) : Decidable (exceedsSqrt a c v) := by
  unfold exceedsSqrt; infer_instance

/-- `calculateATR` (default `period = 14`): mean true range over the last
`period` bar-to-bar transitions (fewer when the series is shorter, `0`
when no transition qualifies). -/
def calculateATR (prices : List PriceData) (period : ℕ := 14) : ℚ :=
  let a := max 1 (prices.length - period)
  let trs := List.zipWith
    (fun current previous =>
      max (current.high - current.low)
        (max |current.high - previous.close| |current.low - previous.close|))
    (prices.drop a) (prices.drop (a - 1))
  if 0 < trs.length then qsum trs / trs.length else 0

structure SupportResistance where
  support : ℚ
  resistance : ℚ
deriving DecidableEq, Repr

/-- `detectSupportResistance`: `resistance = Math.max(...highs)`,
`support = Math.min(...lows)`. -/
def detectSupportResistance (prices : List PriceData) : SupportResistance :=
  { support := minList (prices.map (·.low))
    resistance := maxList (prices.map (·.high)) }

/-! ## PatternScorer -/

inductive Action where
  | BUY
  | SELL
deriving DecidableEq, Repr

/-- The stochastic `%K` vs `%D` sub-factor of the scorer:
`if (stoch_k > stoch_d) bullishSignals += 1.2; else bearishSignals += 1.2;`
returned as the `(bullish, bearish)` contribution. -/
def stochKDVote (k d : ℚ) : ℚ × ℚ :=
  if k > d then (1.2, 0) else (0, 1.2)

/-- Accumulated totals of the pattern scorer. -/
structure Scores where
  bullishSignals : ℚ
  bearishSignals : ℚ
  totalSignals : ℚ
deriving DecidableEq, Repr

/-- The accumulation loop of `analyzePattern` on a (already sliced) price
window: each factor's `bullishSignals += w` / `bearishSignals += w` pair is
written as a local `(bullish, bearish)` contribution, and `totalSignals` is
the sum of the per-factor weights exactly as the source adds them.

The Bollinger-band comparisons of the source use
`upper/lower = middle ± 2·stdDev` with `stdDev = √variance` and
`bandPosition = (currentPrice - lower) / (upper - lower)`.  Over the reals
these comparisons are equivalent to squared rational inequalities:
  `currentPrice < lower`   ↔ `0 < middle - p ∧ 4·variance < (middle - p)²`
  `bandPosition < 0.15`    ↔ `0 < middle - p ∧ (49/25)·variance < (middle - p)²`
  `currentPrice > upper`   ↔ `0 < p - middle ∧ 4·variance < (p - middle)²`
  `bandPosition > 0.85`    ↔ `0 < p - middle ∧ (49/25)·variance < (p - middle)²`
  `bandPosition > 0.5`     ↔ `middle < p`,  `bandPosition < 0.5` ↔ `p < middle`
(`0.15·4 = 0.6`, so `bandPosition < 0.15 ↔ p - middle < -1.4·stdDev`, and
`1.4² = 49/25`; the degenerate `stdDev = 0` case also agrees with the JS
`±Infinity`/`NaN` comparison semantics under these encodings). -/
def patternScores (priceHistory : List PriceData) : Scores :=
  let rsi := calculateRSI priceHistory
  let macdR := calculateMACD priceHistory
  let ma := calculateMovingAverages priceHistory
  let st := calculateStochastic priceHistory
  let bollMid := bollingerMiddle priceHistory 20
  let bollVar := bollingerVariance priceHistory 20
  let atr := calculateATR priceHistory
  let sr := detectSupportResistance priceHistory
  let currentPrice := (priceHistory.getD (priceHistory.length - 1) default).close
  let lastPrice := (priceHistory.getD (priceHistory.length - 2) default).close
  let priceChange := (currentPrice - lastPrice) / lastPrice * 100
  let recentClose := (sliceLast priceHistory 5).map (·.close)
  let isConsecutiveGain :=
    recentClose.getD 0 0 < recentClose.getD 1 0 ∧ recentClose.getD 1 0 < recentClose.getD 2 0
  let isConsecutiveLoss :=
    recentClose.getD 1 0 < recentClose.getD 0 0 ∧ recentClose.getD 2 0 < recentClose.getD 1 0
  -- Extreme RSI readings
  let f1 : ℚ × ℚ :=
    if rsi < 25 then (3, 0)
    else if rsi < 35 then (2.5, 0)
    else if rsi < 50 then (1.2, 0)
    else if rsi > 75 then (0, 3)
    else if rsi > 65 then (0, 2.5)
    else if rsi > 50 then (0, 1.2)
    else (0, 0)
  -- MACD crossovers with histogram strength
  let histogramStrength := |macdR.histogram|
  let macdBonus : ℚ :=
    if histogramStrength > 0.015 then 1.5 else if histogramStrength > 0.005 then 0.8 else 0
  let f2 : ℚ × ℚ :=
    if macdR.histogram > 0 ∧ macdR.macd > macdR.signal then (2.5 + macdBonus, 0)
    else if macdR.histogram < 0 ∧ macdR.macd < macdR.signal then (0, 2.5 + macdBonus)
    else (0, 0)
  -- MA alignment
  let f3 : ℚ × ℚ :=
    if currentPrice > ma.sma20 ∧ ma.sma20 > ma.sma50 then (2.5, 0)
    else if currentPrice > ma.sma20 ∧ currentPrice > ma.sma50 then (1.5, 0)
    else if currentPrice < ma.sma20 ∧ ma.sma20 < ma.sma50 then (0, 2.5)
    else if currentPrice < ma.sma20 ∧ currentPrice < ma.sma50 then (0, 1.5)
    else (0, 0)
  -- EMA proximity
  let distToEma := |currentPrice - ma.ema9| / ma.ema9
  let f4 : ℚ × ℚ :=
    if currentPrice > ma.ema9 ∧ distToEma < 0.005 then (2, 0)
    else if currentPrice > ma.ema9 ∧ distToEma < 0.015 then (1.3, 0)
    else if currentPrice < ma.ema9 ∧ distToEma < 0.005 then (0, 2)
    else if currentPrice < ma.ema9 ∧ distToEma < 0.015 then (0, 1.3)
    else (0, 0)
  -- Consecutive patterns
  let f5 : ℚ × ℚ :=
    if isConsecutiveGain ∧ currentPrice > sr.support then (2.5, 0)
    else if isConsecutiveLoss ∧ currentPrice < sr.resistance then (0, 2.5)
    else (0, 0)
  -- Stochastic level plus the %K-vs-%D vote
  let f6 : ℚ × ℚ :=
    if st.k < 15 then (2.2, 0)
    else if st.k < 30 then (1.5, 0)
    else if st.k > 85 then (0, 2.2)
    else if st.k > 70 then (0, 1.5)
    else (0, 0)
  let kd := stochKDVote st.k st.d
  -- Bollinger Bands (squared encodings of the band comparisons, see above)
  let f7 : ℚ × ℚ :=
    if exceedsSqrt (bollMid - currentPrice) 4 bollVar then (2.5, 0)
    else if exceedsSqrt (bollMid - currentPrice) (49/25) bollVar then (1.8, 0)
    else if exceedsSqrt (currentPrice - bollMid) 4 bollVar then (0, 2.5)
    else if exceedsSqrt (currentPrice - bollMid) (49/25) bollVar then (0, 1.8)
    else (0, 0)
  -- `currentPrice > middle && bandPosition > 0.5` collapses to `middle < p`
  -- (and symmetrically below), see the equivalences above.
  let f7b : ℚ × ℚ :=
    if bollMid < currentPrice then (0.8, 0)
    else if currentPrice < bollMid then (0, 0.8)
    else (0, 0)
  -- Volatility analysis
  let recentHigh := maxList ((sliceLast priceHistory 5).map (·.high))
  let recentLow := minList ((sliceLast priceHistory 5).map (·.low))
  let volatility := recentHigh - recentLow
  -- `atr / (volatility || 0.001)`
  let volatilityRatio := atr / (if volatility = 0 then 0.001 else volatility)
  let f8 : ℚ × ℚ :=
    if volatilityRatio > 1.2 then (0.8, 0)
    else if volatilityRatio > 0.8 then (0, 0.8)
    else (0, 0)
  -- Price momentum (two independent `if`s in the source)
  let f9bull : ℚ := if priceChange > 0.08 ∧ rsi < 70 then 1.5 else 0
  let f9bear : ℚ := if priceChange < -0.08 ∧ rsi > 30 then 1.5 else 0
  { bullishSignals :=
      f1.1 + f2.1 + f3.1 + f4.1 + f5.1 + f6.1 + kd.1 + f7.1 + f7b.1 + f8.1 + f9bull
    bearishSignals :=
      f1.2 + f2.2 + f3.2 + f4.2 + f5.2 + f6.2 + kd.2 + f7.2 + f7b.2 + f8.2 + f9bear
    totalSignals := 3 + 2.5 + 2.5 + 2 + 2.5 + 2.2 + 2.5 + 0.8 + 1.5 }

/-- `analyzePattern` as a function of the instrument's stored price
history (the `simulator.updatePrices()` call and the per-pair lookup are
the external data collaborator; `getPriceHistory(pair, 50)` is
`history.slice(-50)`). -/
def analyzePattern (history : List PriceData) : Action × ℤ :=
  let priceHistory := sliceLast history 50
  if priceHistory.length < 30 then (Action.BUY, 0)
  else
    let sc := patternScores priceHistory
    let bullishPercentage := sc.bullishSignals / sc.totalSignals * 100
    let action := if sc.bullishSignals > sc.bearishSignals then Action.BUY else Action.SELL
    let confirmationStrength := |sc.bullishSignals - sc.bearishSignals|
    let baseConfidence := bullishPercentage
    let confidence := jsRound (baseConfidence * (confirmationStrength / sc.totalSignals) * 3.5)
    (action, min 99 (max 45 confidence))

/-! ## MultiTimeframeScorer -/

/-- `analyzeMultiTimeframe` as a function of the stored price history:
`getPriceHistory(pair, 20)` and `getPriceHistory(pair, 50)` are
`history.slice(-20)` and `history.slice(-50)`. -/
def analyzeMultiTimeframe (history : List PriceData) : ℚ :=
  let shortTerm := sliceLast history 20
  if shortTerm.length < 10 then 0
  else
    let short_rsi := calculateRSI shortTerm
    let short_first := (shortTerm.getD 0 default).close
    let short_last := (shortTerm.getD (shortTerm.length - 1) default).close
    let short_trend : ℤ := if short_last > short_first then 1 else -1
    let short_momentum := (short_last - short_first) / short_first
    let allPrices := sliceLast history 50
    let medium_rsi := calculateRSI allPrices
    let medium_first := (allPrices.getD 0 default).close
    let medium_last := (allPrices.getD (allPrices.length - 1) default).close
    let medium_trend : ℤ := if medium_last > medium_first then 1 else -1
    let medium_momentum := (medium_last - medium_first) / medium_first
    let mtfScore : ℚ :=
      (if short_trend = medium_trend then 1.2 else 0.1)
      + (if |short_momentum| > 0.01 then 0.4 else 0)
      + (if |medium_momentum| > 0.02 then 0.4 else 0)
      + (if |short_rsi - medium_rsi| > 20 then 0.2
         else if |short_rsi - medium_rsi| < 5 then 0.3 else 0)
    min 1.2 mtfScore

/-! ## IntervalScheduler -/

/-- A JS `Date` restricted to what `getNextFiveMinuteInterval` touches:
an absolute minute count (hour rollovers are additions of 60), plus the
seconds and milliseconds components. -/
structure JSTime where
  totalMinutes : ℕ
  seconds : ℕ
  ms : ℕ
deriving DecidableEq, Repr

/-- `date.setMinutes(x)`: replace the minute-of-hour, letting values
`≥ 60` roll over into the following hours exactly as JS normalizes them. -/
def setMinutes (t : JSTime) (x : ℕ) : JSTime :=
  { t with totalMinutes := t.totalMinutes - t.totalMinutes % 60 + x }

/-- `getNextFiveMinuteInterval` as a function of the current time. -/
def getNextFiveMinuteInterval (now : JSTime) : JSTime × JSTime :=
  let minutes := now.totalMinutes % 60
  let seconds := now.seconds
  let milliseconds := now.ms
  -- `Math.ceil(minutes / 5) * 5`
  let alignedMinute := (minutes + 4) / 5 * 5
  let next1 :=
    if alignedMinute = 60 then
      setMinutes { now with totalMinutes := now.totalMinutes + 60 } 0
    else setMinutes now alignedMinute
  let next2 := { next1 with seconds := 0, ms := 0 }
  let next3 :=
    if seconds = 0 ∧ milliseconds = 0 ∧ minutes % 5 = 0 then
      let n := setMinutes next2 (minutes + 5)
      -- dead branch in the source: `setMinutes` has already normalized,
      -- so `getMinutes()` can never be 65
      if n.totalMinutes % 60 = 65 then
        setMinutes { n with totalMinutes := n.totalMinutes + 60 } 5
      else n
    else next2
  let endInterval := setMinutes next3 (next3.totalMinutes % 60 + 5)
  (next3, endInterval)

/-! ## SignalSearchLoop

`generateSignal` draws a random pair each iteration and scores it through
`analyzePattern` / `analyzeMultiTimeframe` (which also consult the mutable
market simulator).  A run of the loop is therefore determined by the
sequence of per-draw outcomes the environment produces: we model it as a
list of `Draw` records, one per iteration the environment would serve, and
the loop consumes them in order (a run of the source corresponds to a list
of length ≥ the number of iterations executed). -/

/-- The per-iteration outcome of one candidate draw: the sampled pair, and
the `analyzePattern` action/confidence and `analyzeMultiTimeframe` score
the scoring produced for it at that moment. -/
structure Draw where
  pair : String
  action : Action
  confidence : ℚ
  mtf : ℚ
deriving DecidableEq, Repr

/-- `mtfBoost = mtf > 1 ? (mtf - 1) * 8 : mtf * 4`. -/
def mtfBoostOf (mtf : ℚ) : ℚ := if mtf > 1 then (mtf - 1) * 8 else mtf * 4

/-- `finalConfidence = Math.min(99, Math.round(confidence + mtfBoost))`. -/
def finalConfidence (d : Draw) : ℤ :=
  min 99 (jsRound (d.confidence + mtfBoostOf d.mtf))

/-- `finalConfidence >= threshold`. -/
def qualifies (threshold : ℤ) (d : Draw) : Bool :=
  threshold ≤ finalConfidence d

/-- The signal record pushed for one qualifying draw. -/
structure Signal where
  pair : String
  action : Action
  confidence : ℤ
  start_time : String
  end_time : String
  session : String
deriving DecidableEq, Repr

/-- One entry of the `validSignals` array: `{ signal, confidence }`. -/
structure ValidRec where
  signal : Signal
  confidence : ℤ
deriving DecidableEq, Repr

instance : Inhabited ValidRec :=
  ⟨⟨⟨"", Action.BUY, 0, "", "", ""⟩, 0⟩⟩

/-- The record built for a qualifying draw `d`. -/
def toValidRec (st et sess : String) (d : Draw) : ValidRec :=
  { signal :=
      { pair := d.pair, action := d.action, confidence := finalConfidence d
        start_time := st, end_time := et, session := sess }
    confidence := finalConfidence d }

/-- The `while (attempts < maxAttempts)` loop of `generateSignal`:
`attempts` counts completed iterations (the `break` after the third push
skips the `attempts++`), and the returned `ℕ` is the number of draws
actually performed.  `maxAttempts = 50`. -/
def searchLoop (th : ℤ) (st et sess : String) :
    List Draw → ℕ → List ValidRec → List ValidRec × ℕ
  | [], attempts, valid => (valid, attempts)
  | d :: rest, attempts, valid =>
    if attempts < 50 then
      if qualifies th d then
        let valid' := valid ++ [toValidRec st et sess d]
        if 3 ≤ valid'.length then (valid', attempts + 1)
        else searchLoop th st et sess rest (attempts + 1) valid'
      else searchLoop th st et sess rest (attempts + 1) valid
    else (valid, attempts)

/-- The `validSignals` array at the end of the loop. -/
def validSignals (th : ℤ) (st et sess : String) (draws : List Draw) : List ValidRec :=
  (searchLoop th st et sess draws 0 []).1

/-- Number of candidate draws performed by the loop. -/
def drawsUsed (th : ℤ) (st et sess : String) (draws : List Draw) : ℕ :=
  (searchLoop th st et sess draws 0 []).2

/-- One step of `validSignals.reduce((best, current) =>
current.confidence > best.confidence ? current : best)`. -/
def maxStep (best cur : ValidRec) : ValidRec :=
  if best.confidence < cur.confidence then cur else best

/-- `generateSignal`: run the search loop, return `null` when nothing
qualified, otherwise the reduce-maximum of `validSignals` (the threshold,
interval stamps and session label are the externally supplied inputs). -/
def generateSignal (th : ℤ) (st et sess : String) (draws : List Draw) : Option Signal :=
  match validSignals th st et sess draws with
  | [] => none
  | v :: vs => some ((vs.foldl maxStep v).signal)

/-- A concrete draw with an integer confidence and no multi-timeframe
boost, used to instantiate theorems on explicit inputs. -/
def mkDraw (p : String) (c : ℤ) : Draw :=
  { pair := p, action := Action.BUY, confidence := (c : ℚ), mtf := 0 }

/-! ## Basic lemmas -/

lemma length_sliceLast (l : List α) (n : ℕ) : (sliceLast l n).length = min n l.length := by
  simp only [sliceLast, List.length_drop]
  omega

lemma rsiAvgGain_nonneg (prices : List PriceData) (period : ℕ) :
    0 ≤ rsiAvgGain prices period := by
  unfold rsiAvgGain
  split
  · apply div_nonneg _ (by positivity)
    apply List.sum_nonneg
    intro x hx
    have hx' : x ∈ (rsiChanges prices).filter (fun c => decide (0 < c)) :=
      List.mem_of_mem_drop hx
    have := (List.mem_filter.mp hx').2
    simpa using le_of_lt (of_decide_eq_true this)
  · exact le_refl 0

lemma rsiAvgLoss_nonneg (prices : List PriceData) (period : ℕ) :
    0 ≤ rsiAvgLoss prices period := by
  unfold rsiAvgLoss
  split
  · apply div_nonneg _ (by positivity)
    apply List.sum_nonneg
    intro x hx
    have hx' : x ∈ ((rsiChanges prices).filter (fun c => decide (c < 0))).map (fun c => |c|) :=
      List.mem_of_mem_drop hx
    obtain ⟨c, _, rfl⟩ := List.mem_map.mp hx'
    exact abs_nonneg c
  · exact le_refl 0

lemma jsRound_intCast (c : ℤ) : jsRound (c : ℚ) = c := by
  rw [jsRound, Int.floor_eq_iff]
  constructor
  · linarith
  · linarith

lemma finalConfidence_mkDraw (p : String) (c : ℤ) (hc : c ≤ 99) :
    finalConfidence (mkDraw p c) = c := by
  have h0 : mtfBoostOf 0 = 0 := by
    rw [mtfBoostOf, if_neg (by norm_num)]
    ring
  rw [finalConfidence]
  show min 99 (jsRound ((c : ℚ) + mtfBoostOf 0)) = c
  rw [h0, add_zero, jsRound_intCast, min_eq_right hc]

lemma toValidRec_mkDraw (st et sess p : String) (c : ℤ) (hc : c ≤ 99) :
    toValidRec st et sess (mkDraw p c)
      = ⟨⟨p, Action.BUY, c, st, et, sess⟩, c⟩ := by
  rw [toValidRec, finalConfidence_mkDraw p c hc]
  rfl

/-! ## Claim theorems -/

/-- C6. For every input price window, the RSI returned by `calculateRSI`
lies in `[0, 100]`; when the average loss is zero the result is `100` if
the average gain is positive and `0` otherwise. -/
theorem calculateRSI_range (prices : List PriceData) (period : ℕ) :
    0 ≤ calculateRSI prices period ∧ calculateRSI prices period ≤ 100
    ∧ (rsiAvgLoss prices period = 0 →
        calculateRSI prices period
          = if 0 < rsiAvgGain prices period then 100 else 0) := by
  by_cases hl : rsiAvgLoss prices period = 0
  · unfold calculateRSI
    rw [if_pos hl]
    refine ⟨?_, ?_, fun _ => rfl⟩ <;> split <;> norm_num
  · have hln : 0 < rsiAvgLoss prices period :=
      lt_of_le_of_ne (rsiAvgLoss_nonneg prices period) (Ne.symm hl)
    have hg := rsiAvgGain_nonneg prices period
    have hrs : 0 ≤ rsiAvgGain prices period / rsiAvgLoss prices period :=
      div_nonneg hg hln.le
    have h1 : (0 : ℚ) < 1 + rsiAvgGain prices period / rsiAvgLoss prices period := by
      linarith
    have hdivpos : 0 < 100 / (1 + rsiAvgGain prices period / rsiAvgLoss prices period) :=
      div_pos (by norm_num) h1
    have hdivle : 100 / (1 + rsiAvgGain prices period / rsiAvgLoss prices period) ≤ 100 := by
      rw [div_le_iff₀ h1]
      nlinarith
    unfold calculateRSI
    rw [if_neg hl]
    exact ⟨by linarith, by linarith, fun h => absurd h hl⟩

/-- C6 witness: the empty window has zero average loss and zero RSI. -/
theorem calculateRSI_range_witness :
    0 ≤ calculateRSI [] 14 ∧ calculateRSI [] 14 ≤ 100
    ∧ calculateRSI [] 14 = if 0 < rsiAvgGain [] 14 then 100 else 0 :=
  ⟨(calculateRSI_range [] 14).1, (calculateRSI_range [] 14).2.1,
   (calculateRSI_range [] 14).2.2 rfl⟩

/-- C8. `calculateMACD` returns `macd = EMA12 − EMA26` of the closes,
`signal = EMA9` of the MACD series recomputed from scratch on every prefix
of the closes, and `histogram = macd − signal`, where the EMA seeds at the
first element of its slice and folds forward with multiplier `2/(period+1)`. -/
theorem calculateMACD_spec (prices : List PriceData) :
    (calculateMACD prices).macd
        = calculateEMA (prices.map (·.close)) 12 - calculateEMA (prices.map (·.close)) 26
    ∧ (calculateMACD prices).signal
        = calculateEMA
            ((List.range (prices.map (·.close)).length).map
              (fun i => calculateEMA ((prices.map (·.close)).take (i + 1)) 12
                        - calculateEMA ((prices.map (·.close)).take (i + 1)) 26)) 9
    ∧ (calculateMACD prices).histogram
        = (calculateMACD prices).macd - (calculateMACD prices).signal
    ∧ (∀ (x : ℚ) (p : ℕ), calculateEMA [x] p = x)
    ∧ (∀ (vs : List ℚ) (x : ℚ) (p : ℕ), vs ≠ [] →
        calculateEMA (vs ++ [x]) p
          = x * (2 / (p + 1)) + calculateEMA vs p * (1 - 2 / (p + 1))) := by
  refine ⟨rfl, rfl, rfl, fun x p => rfl, ?_⟩
  intro vs x p hvs
  match vs with
  | [] => exact absurd rfl hvs
  | v :: rest =>
    show (rest ++ [x]).foldl _ v = _
    rw [List.foldl_append]
    rfl

/-- C8 witness: the EMA recurrence instantiated on a concrete two-element
series. -/
theorem calculateMACD_spec_witness :
    calculateEMA ([1] ++ [2]) 9 = 2 * (2 / ((9 : ℕ) + 1)) + calculateEMA [1] 9 * (1 - 2 / ((9 : ℕ) + 1)) :=
  (calculateMACD_spec []).2.2.2.2 [1] 2 9 (by simp)

/-- C5. With at least 3 bars, `calculateStochastic` returns `%D = %K`
exactly; consequently every scoring evaluation (≥ 30 bars) finds
`%K > %D` false and the 1.2-weight `%K`-vs-`%D` vote goes to the bearish
total, never the bullish one. -/
theorem stochastic_d_eq_k (prices : List PriceData) :
    (3 ≤ prices.length →
      (calculateStochastic prices 14).d = (calculateStochastic prices 14).k)
    ∧ (30 ≤ prices.length →
        ¬ ((calculateStochastic (sliceLast prices 50) 14).k
            > (calculateStochastic (sliceLast prices 50) 14).d)
        ∧ stochKDVote (calculateStochastic (sliceLast prices 50) 14).k
            (calculateStochastic (sliceLast prices 50) 14).d = (0, 1.2)) := by
  have main : ∀ l : List PriceData, 3 ≤ l.length →
      (calculateStochastic l 14).d = (calculateStochastic l 14).k := by
    intro l hl
    have hlen : (sliceLast l 14).length = min 14 l.length := length_sliceLast l 14
    unfold calculateStochastic
    cases hr : sliceLast l 14 with
    | nil => rfl
    | cons r0 rs =>
      simp only
      rw [if_pos (by omega : 1 < l.length), if_pos (by omega : 2 < l.length)]
      ring
  refine ⟨main prices, fun h30 => ?_⟩
  have h3 : 3 ≤ (sliceLast prices 50).length := by
    rw [length_sliceLast]; omega
  have hdk := main (sliceLast prices 50) h3
  constructor
  · rw [hdk]; exact lt_irrefl _
  · rw [stochKDVote, if_neg (by rw [hdk]; exact lt_irrefl _)]

/-- C5 witness: a concrete 30-bar series. -/
theorem stochastic_d_eq_k_witness :
    (calculateStochastic (List.replicate 30 (⟨0, 1, 2, 0, 1⟩ : PriceData)) 14).d
        = (calculateStochastic (List.replicate 30 (⟨0, 1, 2, 0, 1⟩ : PriceData)) 14).k
    ∧ stochKDVote
        (calculateStochastic (sliceLast (List.replicate 30 (⟨0, 1, 2, 0, 1⟩ : PriceData)) 50) 14).k
        (calculateStochastic (sliceLast (List.replicate 30 (⟨0, 1, 2, 0, 1⟩ : PriceData)) 50) 14).d
      = (0, 1.2) :=
  ⟨(stochastic_d_eq_k (List.replicate 30 ⟨0, 1, 2, 0, 1⟩)).1 (by simp),
   ((stochastic_d_eq_k (List.replicate 30 ⟨0, 1, 2, 0, 1⟩)).2 (by simp)).2⟩

/-- C7. The multi-timeframe boost always lies in `[0, 1.2]`, and equals
`0` whenever the short window has fewer than 10 bars. -/
theorem analyzeMultiTimeframe_range (history : List PriceData) :
    0 ≤ analyzeMultiTimeframe history ∧ analyzeMultiTimeframe history ≤ 1.2
    ∧ (history.length < 10 → analyzeMultiTimeframe history = 0) := by
  have hlen : (sliceLast history 20).length = min 20 history.length :=
    length_sliceLast history 20
  by_cases hshort : (sliceLast history 20).length < 10
  · unfold analyzeMultiTimeframe
    rw [if_pos hshort]
    exact ⟨le_refl 0, by norm_num, fun _ => rfl⟩
  · unfold analyzeMultiTimeframe
    rw [if_neg hshort]
    refine ⟨le_min (by norm_num) ?_, min_le_left _ _, fun hlt => by omega⟩
    split_ifs <;> norm_num

/-- C7 witness: the empty history. -/
theorem analyzeMultiTimeframe_range_witness : analyzeMultiTimeframe [] = 0 :=
  (analyzeMultiTimeframe_range []).2.2 (by simp)

/-- C1. `analyzePattern` returns `(BUY, 0)` below 30 bars; otherwise its
confidence is `round(3.5 · (100·bullish/totalWeight) · (|bullish − bearish|/totalWeight))`
clamped to `[45, 99]` — so the confidence is either exactly `0` or lies in
`[45, 99]`, never anywhere else. -/
theorem analyzePattern_confidence_range (h : List PriceData) :
    (h.length < 30 → analyzePattern h = (Action.BUY, 0))
    ∧ (30 ≤ h.length →
        (analyzePattern h).2
          = min 99 (max 45 (jsRound
              (3.5 * (100 * (patternScores (sliceLast h 50)).bullishSignals
                        / (patternScores (sliceLast h 50)).totalSignals)
                * (|(patternScores (sliceLast h 50)).bullishSignals
                      - (patternScores (sliceLast h 50)).bearishSignals|
                    / (patternScores (sliceLast h 50)).totalSignals))))
        ∧ 45 ≤ (analyzePattern h).2 ∧ (analyzePattern h).2 ≤ 99)
    ∧ ((analyzePattern h).2 = 0 ∨ (45 ≤ (analyzePattern h).2 ∧ (analyzePattern h).2 ≤ 99)) := by
  have hlen : (sliceLast h 50).length = min 50 h.length := length_sliceLast h 50
  have part1 : h.length < 30 → analyzePattern h = (Action.BUY, 0) := by
    intro h30
    unfold analyzePattern
    rw [if_pos (by omega)]
  have part2 : 30 ≤ h.length →
      (analyzePattern h).2
        = min 99 (max 45 (jsRound
            (3.5 * (100 * (patternScores (sliceLast h 50)).bullishSignals
                      / (patternScores (sliceLast h 50)).totalSignals)
              * (|(patternScores (sliceLast h 50)).bullishSignals
                    - (patternScores (sliceLast h 50)).bearishSignals|
                  / (patternScores (sliceLast h 50)).totalSignals))))
      ∧ 45 ≤ (analyzePattern h).2 ∧ (analyzePattern h).2 ≤ 99 := by
    intro h30
    unfold analyzePattern
    rw [if_neg (by omega)]
    simp only
    refine ⟨?_, le_min (by norm_num) (le_max_left _ _), min_le_left _ _⟩
    congr 3
    ring
  refine ⟨part1, part2, ?_⟩
  by_cases h30 : h.length < 30
  · left
    rw [part1 h30]
  · right
    exact (part2 (by omega)).2

/-- C1 witness: the empty history takes the sentinel branch, and the
either-0-or-in-[45,99] disjunction holds there. -/
theorem analyzePattern_confidence_range_witness :
    analyzePattern [] = (Action.BUY, 0)
    ∧ ((analyzePattern []).2 = 0 ∨ (45 ≤ (analyzePattern []).2 ∧ (analyzePattern []).2 ≤ 99)) :=
  ⟨(analyzePattern_confidence_range []).1 (by simp),
   (analyzePattern_confidence_range []).2.2⟩

/-- C9. `getNextFiveMinuteInterval` always returns an interval whose end
is start + 5 minutes, whose start lies on a 5-minute boundary with zero
seconds and milliseconds; input 12:03:00 yields start 12:05:00 and input
12:07:30 yields start 12:10:00. -/
theorem nextFiveMinuteInterval_spec (t : JSTime) :
    (getNextFiveMinuteInterval t).2.totalMinutes
        = (getNextFiveMinuteInterval t).1.totalMinutes + 5
    ∧ (getNextFiveMinuteInterval t).2.seconds = 0
    ∧ (getNextFiveMinuteInterval t).2.ms = 0
    ∧ ((getNextFiveMinuteInterval t).1.totalMinutes % 60) % 5 = 0
    ∧ (getNextFiveMinuteInterval t).1.seconds = 0
    ∧ (getNextFiveMinuteInterval t).1.ms = 0
    ∧ getNextFiveMinuteInterval ⟨12 * 60 + 3, 0, 0⟩ = (⟨12 * 60 + 5, 0, 0⟩, ⟨12 * 60 + 10, 0, 0⟩)
    ∧ (getNextFiveMinuteInterval ⟨12 * 60 + 7, 30, 0⟩).1 = ⟨12 * 60 + 10, 0, 0⟩ := by
  refine ⟨?_, ?_, ?_, ?_, ?_, ?_, by decide, by decide⟩ <;>
    · simp only [getNextFiveMinuteInterval, setMinutes]
      split_ifs <;> simp only [] <;> omega

/-- C10. When the input lies exactly on a 5-minute boundary with zero
seconds and milliseconds, the returned start is strictly later than the
input: the next boundary, 5 minutes ahead. -/
theorem nextFiveMinuteInterval_boundary_advances (t : JSTime)
    (hs : t.seconds = 0) (hm : t.ms = 0) (hb : (t.totalMinutes % 60) % 5 = 0) :
    (getNextFiveMinuteInterval t).1.totalMinutes = t.totalMinutes + 5
    ∧ t.totalMinutes < (getNextFiveMinuteInterval t).1.totalMinutes := by
  have : (getNextFiveMinuteInterval t).1.totalMinutes = t.totalMinutes + 5 := by
    simp only [getNextFiveMinuteInterval, setMinutes, hs, hm, hb, eq_self_iff_true,
      and_self, if_true]
    split_ifs <;> simp only [] <;> omega
  exact ⟨this, by omega⟩

/-- C10 witness: 12:00:00 advances to 12:05:00. -/
theorem nextFiveMinuteInterval_boundary_advances_witness :
    (getNextFiveMinuteInterval ⟨12 * 60, 0, 0⟩).1.totalMinutes = 12 * 60 + 5
    ∧ 12 * 60 < (getNextFiveMinuteInterval ⟨12 * 60, 0, 0⟩).1.totalMinutes :=
  nextFiveMinuteInterval_boundary_advances ⟨12 * 60, 0, 0⟩ rfl rfl (by decide)

/-! ## Search-loop lemmas -/

/-- The `validSignals` array collected by the loop: starting from an
accumulator shorter than 3 entries, the loop appends the first
`3 - |acc|` qualifying draws among the at most `50 - attempts` draws it
may still process. -/
lemma searchLoop_valid_eq (th : ℤ) (st et sess : String) :
    ∀ (l : List Draw) (a : ℕ) (v : List ValidRec), v.length < 3 →
      (searchLoop th st et sess l a v).1
        = v ++ (((l.take (50 - a)).filter (qualifies th)).take (3 - v.length)).map
            (toValidRec st et sess) := by
  intro l
  induction l with
  | nil => intro a v _; simp [searchLoop]
  | cons d rest ih =>
    intro a v hv
    by_cases ha : a < 50
    · have htake : (d :: rest).take (50 - a) = d :: rest.take (50 - (a + 1)) := by
        have h : 50 - a = (50 - (a + 1)) + 1 := by omega
        rw [h, List.take_succ_cons]
      rw [searchLoop, if_pos ha]
      by_cases hq : qualifies th d
      · rw [if_pos hq, htake]
        by_cases h3 : 3 ≤ (v ++ [toValidRec st et sess d]).length
        · rw [if_pos h3]
          have hv2 : v.length = 2 := by
            simp only [List.length_append, List.length_singleton] at h3
            omega
          rw [List.filter_cons_of_pos hq, hv2]
          norm_num
        · rw [if_neg h3]
          have hv' : (v ++ [toValidRec st et sess d]).length < 3 := by omega
          rw [ih (a + 1) _ hv']
          have hl : (v ++ [toValidRec st et sess d]).length = v.length + 1 := by
            simp
          rw [hl]
          have hsub : 3 - v.length = (3 - (v.length + 1)) + 1 := by omega
          rw [List.filter_cons_of_pos hq, hsub, List.take_succ_cons]
          simp
      · rw [if_neg hq, htake, ih (a + 1) v hv, List.filter_cons_of_neg (by simpa using hq)]
    · rw [searchLoop, if_neg ha]
      have h : 50 - a = 0 := by omega
      simp [h]

/-- The number of draws the loop performs never exceeds 50. -/
lemma searchLoop_draws_le (th : ℤ) (st et sess : String) :
    ∀ (l : List Draw) (a : ℕ) (v : List ValidRec), a ≤ 50 →
      (searchLoop th st et sess l a v).2 ≤ 50 := by
  intro l
  induction l with
  | nil => intro a v ha; simpa [searchLoop] using ha
  | cons d rest ih =>
    intro a v ha
    rw [searchLoop]
    by_cases h50 : a < 50
    · rw [if_pos h50]
      by_cases hq : qualifies th d
      · rw [if_pos hq]
        by_cases h3 : 3 ≤ (v ++ [toValidRec st et sess d]).length
        · rw [if_pos h3]
          show a + 1 ≤ 50
          omega
        · rw [if_neg h3]
          exact ih (a + 1) _ (by omega)
      · rw [if_neg hq]
        exact ih (a + 1) v (by omega)
    · rw [if_neg h50]
      exact ha

/-- The loop stops early: if at least `3 - |acc|` of the first `n` draws
qualify, it performs at most `n` more draws. -/
lemma searchLoop_draws_early (th : ℤ) (st et sess : String) :
    ∀ (l : List Draw) (a : ℕ) (v : List ValidRec) (n : ℕ), v.length < 3 →
      3 - v.length ≤ ((l.take n).filter (qualifies th)).length →
      (searchLoop th st et sess l a v).2 ≤ a + n := by
  intro l
  induction l with
  | nil => intro a v n _ _; simp [searchLoop]
  | cons d rest ih =>
    intro a v n hv hn
    rw [searchLoop]
    by_cases h50 : a < 50
    · rw [if_pos h50]
      match n with
      | 0 =>
        simp only [List.take_zero, List.filter_nil, List.length_nil] at hn
        omega
      | m + 1 =>
        rw [List.take_succ_cons] at hn
        by_cases hq : qualifies th d
        · rw [if_pos hq]
          rw [List.filter_cons_of_pos hq] at hn
          by_cases h3 : 3 ≤ (v ++ [toValidRec st et sess d]).length
          · rw [if_pos h3]
            show a + 1 ≤ a + (m + 1)
            omega
          · rw [if_neg h3]
            have hlen : (v ++ [toValidRec st et sess d]).length = v.length + 1 := by simp
            have hrec := ih (a + 1) (v ++ [toValidRec st et sess d]) m
              (by omega)
              (by
                rw [hlen]
                simp only [List.length_cons] at hn
                omega)
            omega
        · rw [if_neg hq]
          rw [List.filter_cons_of_neg (by simpa using hq)] at hn
          have hrec := ih (a + 1) v m hv hn
          omega
    · rw [if_neg h50]
      show a ≤ a + n
      omega

/-- The reduce step keeps the first-seen element among ties and replaces
it only on a strictly larger confidence: the fold therefore returns the
first element of `b :: vs` achieving the maximal confidence. -/
lemma foldl_maxStep_spec : ∀ (vs : List ValidRec) (b : ValidRec),
    ∃ i, i < (b :: vs).length
      ∧ vs.foldl maxStep b = (b :: vs).getD i default
      ∧ (∀ j, j < (b :: vs).length →
          ((b :: vs).getD j default).confidence ≤ ((b :: vs).getD i default).confidence)
      ∧ (∀ j, j < i →
          ((b :: vs).getD j default).confidence < ((b :: vs).getD i default).confidence) := by
  intro vs
  induction vs with
  | nil =>
    intro b
    refine ⟨0, by simp, rfl, ?_, by omega⟩
    intro j hj
    simp only [List.length_cons, List.length_nil] at hj
    interval_cases j
    simp
  | cons x xs ih =>
    intro b
    obtain ⟨i, hi, heq, hmax, hstrict⟩ := ih (maxStep b x)
    have hfold : (x :: xs).foldl maxStep b = xs.foldl maxStep (maxStep b x) := rfl
    by_cases hcmp : b.confidence < x.confidence
    · have hb' : maxStep b x = x := by rw [maxStep, if_pos hcmp]
      rw [hb'] at hi heq hmax hstrict
      refine ⟨i + 1, by simpa using hi, ?_, ?_, ?_⟩
      · rw [hfold, hb', List.getD_cons_succ]
        exact heq
      · intro j hj
        rw [List.getD_cons_succ]
        match j with
        | 0 =>
          rw [List.getD_cons_zero]
          have h0 : ((x :: xs).getD 0 default).confidence
              ≤ ((x :: xs).getD i default).confidence := hmax 0 (by simp)
          rw [List.getD_cons_zero] at h0
          exact le_trans hcmp.le h0
        | j + 1 =>
          rw [List.getD_cons_succ]
          exact hmax j (by simpa using hj)
      · intro j hj
        rw [List.getD_cons_succ]
        match j with
        | 0 =>
          rw [List.getD_cons_zero]
          have h0 : ((x :: xs).getD 0 default).confidence
              ≤ ((x :: xs).getD i default).confidence := hmax 0 (by simp)
          rw [List.getD_cons_zero] at h0
          exact lt_of_lt_of_le hcmp h0
        | j + 1 =>
          rw [List.getD_cons_succ]
          exact hstrict j (by omega)
    · have hb' : maxStep b x = b := by rw [maxStep, if_neg hcmp]
      have hxb : x.confidence ≤ b.confidence := not_lt.mp hcmp
      rw [hb'] at hi heq hmax hstrict
      match i, hi, heq, hmax, hstrict with
      | 0, hi, heq, hmax, hstrict =>
        refine ⟨0, by simp, ?_, ?_, by omega⟩
        · rw [hfold, hb', List.getD_cons_zero]
          rw [List.getD_cons_zero] at heq
          exact heq
        · intro j hj
          rw [List.getD_cons_zero] at hmax ⊢
          match j with
          | 0 => rw [List.getD_cons_zero]
          | 1 =>
            rw [List.getD_cons_succ, List.getD_cons_zero]
            exact hxb
          | j + 2 =>
            rw [List.getD_cons_succ, List.getD_cons_succ]
            have := hmax (j + 1) (by simpa using hj)
            rw [List.getD_cons_succ] at this
            exact this
      | i + 1, hi, heq, hmax, hstrict =>
        have hbM : b.confidence < ((b :: xs).getD (i + 1) default).confidence :=
          hstrict 0 (by omega)
        refine ⟨i + 2, by simpa using hi, ?_, ?_, ?_⟩
        · rw [hfold, hb', List.getD_cons_succ, List.getD_cons_succ]
          rw [List.getD_cons_succ] at heq
          exact heq
        · intro j hj
          rw [List.getD_cons_succ, List.getD_cons_succ]
          rw [List.getD_cons_succ] at hmax
          match j with
          | 0 =>
            rw [List.getD_cons_zero]
            have := hmax 0 (by simp)
            rw [List.getD_cons_zero] at this
            exact this
          | 1 =>
            rw [List.getD_cons_succ, List.getD_cons_zero]
            exact le_trans hxb (le_of_lt hbM)
          | j + 2 =>
            rw [List.getD_cons_succ, List.getD_cons_succ]
            have := hmax (j + 1) (by simpa using hj)
            rw [List.getD_cons_succ] at this
            exact this
        · intro j hj
          rw [List.getD_cons_succ, List.getD_cons_succ]
          match j with
          | 0 =>
            rw [List.getD_cons_zero]
            exact hbM
          | 1 =>
            rw [List.getD_cons_succ, List.getD_cons_zero]
            exact lt_of_le_of_lt hxb hbM
          | j + 2 =>
            rw [List.getD_cons_succ, List.getD_cons_succ]
            have := hstrict (j + 1) (by omega)
            rw [List.getD_cons_succ, List.getD_cons_succ] at this
            exact this

/-- The collected `validSignals` entries, from the initial empty
accumulator. -/
lemma validSignals_eq (th : ℤ) (st et sess : String) (l : List Draw) :
    validSignals th st et sess l
      = (((l.take 50).filter (qualifies th)).take 3).map (toValidRec st et sess) := by
  rw [validSignals, searchLoop_valid_eq th st et sess l 0 [] (by simp)]
  simp

/-- Every recorded candidate qualifies: its confidence is ≥ threshold. -/
lemma validSignals_qualify (th : ℤ) (st et sess : String) (l : List Draw) :
    ∀ r ∈ validSignals th st et sess l, th ≤ r.confidence := by
  intro r hr
  rw [validSignals_eq] at hr
  obtain ⟨d, hd, rfl⟩ := List.mem_map.mp hr
  have hdf := List.mem_of_mem_take hd
  have hq := (List.mem_filter.mp hdf).2
  simpa [toValidRec, qualifies] using of_decide_eq_true hq

/-- C2. For a run of the search loop (at most 50 draws performed): if
every draw's `finalConfidence` is below the threshold the result is
`null`; otherwise the result is a recorded qualifying candidate whose
`finalConfidence` is maximal among all recorded qualifying candidates,
ties broken in favor of the first-seen candidate. -/
theorem generateSignal_selects_max (th : ℤ) (st et sess : String) (l : List Draw)
    (hlen : l.length ≤ 50) :
    ((∀ d ∈ l, finalConfidence d < th) → generateSignal th st et sess l = none)
    ∧ ((∃ d ∈ l, th ≤ finalConfidence d) →
        ∃ i, i < (validSignals th st et sess l).length
          ∧ generateSignal th st et sess l
              = some (((validSignals th st et sess l).getD i default).signal)
          ∧ th ≤ ((validSignals th st et sess l).getD i default).confidence
          ∧ (∀ j, j < (validSignals th st et sess l).length →
              ((validSignals th st et sess l).getD j default).confidence
                ≤ ((validSignals th st et sess l).getD i default).confidence)
          ∧ (∀ j, j < i →
              ((validSignals th st et sess l).getD j default).confidence
                < ((validSignals th st et sess l).getD i default).confidence)) := by
  have htake : l.take 50 = l := List.take_of_length_le hlen
  constructor
  · intro hall
    have hfil : l.filter (qualifies th) = [] := by
      apply List.filter_eq_nil_iff.mpr
      intro d hd
      simp only [qualifies, decide_eq_true_eq]
      exact not_le.mpr (hall d hd)
    have hnone : validSignals th st et sess l = [] := by
      rw [validSignals_eq, htake, hfil]
      simp
    simp [generateSignal, hnone]
  · intro ⟨d, hd, hq⟩
    have hne : validSignals th st et sess l ≠ [] := by
      rw [validSignals_eq, htake]
      have hdf : d ∈ l.filter (qualifies th) :=
        List.mem_filter.mpr ⟨hd, decide_eq_true hq⟩
      intro hcon
      have h0 : ((l.filter (qualifies th)).take 3).length = 0 := by
        rw [← List.length_map (f := toValidRec st et sess), hcon]
        rfl
      rw [List.length_take] at h0
      have : 0 < (l.filter (qualifies th)).length := List.length_pos.mpr
        (fun hnil => by rw [hnil] at hdf; exact absurd hdf (List.not_mem_nil d))
      omega
    cases hvv : validSignals th st et sess l with
    | nil => exact absurd hvv hne
    | cons v vs =>
      obtain ⟨i, hi, heq, hmax, hstrict⟩ := foldl_maxStep_spec vs v
      refine ⟨i, hi, ?_, ?_, hmax, hstrict⟩
      · simp only [generateSignal, hvv]
        rw [heq]
      · have hqual := validSignals_qualify th st et sess l
        rw [hvv] at hqual
        apply hqual
        rw [List.getD_eq_getElem _ _ hi]
        exact List.getElem_mem hi

/-- C2 witness: one qualifying draw (confidence 70, threshold 65, boost 0)
is recorded and returned as the maximum. -/
theorem generateSignal_selects_max_witness :
    ∃ i, i < (validSignals 65 "s" "e" "x" [mkDraw "EUR/USD" 70]).length
      ∧ generateSignal 65 "s" "e" "x" [mkDraw "EUR/USD" 70]
          = some (((validSignals 65 "s" "e" "x" [mkDraw "EUR/USD" 70]).getD i
              default).signal)
      ∧ 65 ≤ ((validSignals 65 "s" "e" "x" [mkDraw "EUR/USD" 70]).getD i
              default).confidence
      ∧ (∀ j, j < (validSignals 65 "s" "e" "x" [mkDraw "EUR/USD" 70]).length →
          ((validSignals 65 "s" "e" "x" [mkDraw "EUR/USD" 70]).getD j
              default).confidence
            ≤ ((validSignals 65 "s" "e" "x" [mkDraw "EUR/USD" 70]).getD i
                default).confidence)
      ∧ (∀ j, j < i →
          ((validSignals 65 "s" "e" "x" [mkDraw "EUR/USD" 70]).getD j
              default).confidence
            < ((validSignals 65 "s" "e" "x" [mkDraw "EUR/USD" 70]).getD i
                default).confidence) :=
  (generateSignal_selects_max 65 "s" "e" "x" [mkDraw "EUR/USD" 70] (by simp)).2
    ⟨mkDraw "EUR/USD" 70, by simp,
      by rw [finalConfidence_mkDraw _ _ (by decide)]; decide⟩

/-- C4. The loop performs at most `maxAttempts = 50` draws, records at
most 3 qualifying candidates, and stops within `n` draws whenever the
first `n` draws already contain 3 qualifying candidates. -/
theorem searchLoop_bounded (th : ℤ) (st et sess : String) (l : List Draw) :
    drawsUsed th st et sess l ≤ 50
    ∧ (validSignals th st et sess l).length ≤ 3
    ∧ ∀ n, 3 ≤ ((l.take n).filter (qualifies th)).length →
        drawsUsed th st et sess l ≤ n := by
  refine ⟨searchLoop_draws_le th st et sess l 0 [] (by omega), ?_, ?_⟩
  · rw [validSignals_eq, List.length_map, List.length_take]
    omega
  · intro n hn
    have h := searchLoop_draws_early th st et sess l 0 [] n (by simp) (by simpa using hn)
    simpa using h

/-- C4 witness: with three qualifying draws up front, the loop stops
after 3 draws. -/
theorem searchLoop_bounded_witness :
    drawsUsed 65 "s" "e" "x"
        [mkDraw "A" 70, mkDraw "B" 71, mkDraw "C" 72, mkDraw "D" 90] ≤ 3 :=
  (searchLoop_bounded 65 "s" "e" "x"
      [mkDraw "A" 70, mkDraw "B" 71, mkDraw "C" 72, mkDraw "D" 90]).2.2 3
    (by
      have hA : qualifies 65 (mkDraw "A" 70) = true := by
        rw [qualifies, finalConfidence_mkDraw _ _ (by decide)]; decide
      have hB : qualifies 65 (mkDraw "B" 71) = true := by
        rw [qualifies, finalConfidence_mkDraw _ _ (by decide)]; decide
      have hC : qualifies 65 (mkDraw "C" 72) = true := by
        rw [qualifies, finalConfidence_mkDraw _ _ (by decide)]; decide
      simp [List.filter_cons, hA, hB, hC])

/-- C3 counterexample (closed): two permutations of the same four draws
yield different signals, because the loop records only the first three
qualifying draws before breaking.  With threshold 65, the order
`70, 70, 70, 90` records the three 70s and returns the first 70-signal,
while `70, 70, 90, 70` records the 90 and returns it. -/
theorem generateSignal_order_dependent :
    ([mkDraw "A" 70, mkDraw "B" 70, mkDraw "C" 70, mkDraw "D" 90].Perm
        [mkDraw "A" 70, mkDraw "B" 70, mkDraw "D" 90, mkDraw "C" 70])
    ∧ generateSignal 65 "s" "e" "x"
          [mkDraw "A" 70, mkDraw "B" 70, mkDraw "C" 70, mkDraw "D" 90]
        ≠ generateSignal 65 "s" "e" "x"
          [mkDraw "A" 70, mkDraw "B" 70, mkDraw "D" 90, mkDraw "C" 70] := by
  have hqA : qualifies 65 (mkDraw "A" 70) = true := by
    rw [qualifies, finalConfidence_mkDraw _ _ (by decide)]; decide
  have hqB : qualifies 65 (mkDraw "B" 70) = true := by
    rw [qualifies, finalConfidence_mkDraw _ _ (by decide)]; decide
  have hqC : qualifies 65 (mkDraw "C" 70) = true := by
    rw [qualifies, finalConfidence_mkDraw _ _ (by decide)]; decide
  have hqD : qualifies 65 (mkDraw "D" 90) = true := by
    rw [qualifies, finalConfidence_mkDraw _ _ (by decide)]; decide
  have hv₁ : validSignals 65 "s" "e" "x"
      [mkDraw "A" 70, mkDraw "B" 70, mkDraw "C" 70, mkDraw "D" 90]
      = [⟨⟨"A", Action.BUY, 70, "s", "e", "x"⟩, 70⟩,
         ⟨⟨"B", Action.BUY, 70, "s", "e", "x"⟩, 70⟩,
         ⟨⟨"C", Action.BUY, 70, "s", "e", "x"⟩, 70⟩] := by
    rw [validSignals_eq,
      show List.take 50 [mkDraw "A" 70, mkDraw "B" 70, mkDraw "C" 70, mkDraw "D" 90]
          = [mkDraw "A" 70, mkDraw "B" 70, mkDraw "C" 70, mkDraw "D" 90] from rfl]
    rw [List.filter_cons_of_pos hqA, List.filter_cons_of_pos hqB,
      List.filter_cons_of_pos hqC, List.filter_cons_of_pos hqD, List.filter_nil]
    rw [show List.take 3 [mkDraw "A" 70, mkDraw "B" 70, mkDraw "C" 70, mkDraw "D" 90]
          = [mkDraw "A" 70, mkDraw "B" 70, mkDraw "C" 70] from rfl]
    rw [List.map_cons, List.map_cons, List.map_cons, List.map_nil,
      toValidRec_mkDraw _ _ _ _ _ (by decide), toValidRec_mkDraw _ _ _ _ _ (by decide),
      toValidRec_mkDraw _ _ _ _ _ (by decide)]
  have hv₂ : validSignals 65 "s" "e" "x"
      [mkDraw "A" 70, mkDraw "B" 70, mkDraw "D" 90, mkDraw "C" 70]
      = [⟨⟨"A", Action.BUY, 70, "s", "e", "x"⟩, 70⟩,
         ⟨⟨"B", Action.BUY, 70, "s", "e", "x"⟩, 70⟩,
         ⟨⟨"D", Action.BUY, 90, "s", "e", "x"⟩, 90⟩] := by
    rw [validSignals_eq,
      show List.take 50 [mkDraw "A" 70, mkDraw "B" 70, mkDraw "D" 90, mkDraw "C" 70]
          = [mkDraw "A" 70, mkDraw "B" 70, mkDraw "D" 90, mkDraw "C" 70] from rfl]
    rw [List.filter_cons_of_pos hqA, List.filter_cons_of_pos hqB,
      List.filter_cons_of_pos hqD, List.filter_cons_of_pos hqC, List.filter_nil]
    rw [show List.take 3 [mkDraw "A" 70, mkDraw "B" 70, mkDraw "D" 90, mkDraw "C" 70]
          = [mkDraw "A" 70, mkDraw "B" 70, mkDraw "D" 90] from rfl]
    rw [List.map_cons, List.map_cons, List.map_cons, List.map_nil,
      toValidRec_mkDraw _ _ _ _ _ (by decide), toValidRec_mkDraw _ _ _ _ _ (by decide),
      toValidRec_mkDraw _ _ _ _ _ (by decide)]
  refine ⟨List.Perm.cons (mkDraw "A" 70) (List.Perm.cons (mkDraw "B" 70)
    (List.Perm.swap (mkDraw "D" 90) (mkDraw "C" 70) [])), ?_⟩
  simp only [generateSignal, hv₁, hv₂]
  decide

/-- C3 amended. The selection is order-independent only on runs where the
early break and the 50-draw cap cannot interfere: if at most 3 draws
qualify, the draw list fits in the 50-attempt budget, and the qualifying
draws have pairwise distinct `finalConfidence`s, then any two permutations
of the same draws yield the same returned signal. -/
theorem generateSignal_perm_invariant (th : ℤ) (st et sess : String)
    (l₁ l₂ : List Draw) (hperm : l₁.Perm l₂) (hlen : l₁.length ≤ 50)
    (hq3 : (l₁.filter (qualifies th)).length ≤ 3)
    (hdist : (l₁.filter (qualifies th)).Pairwise
        (fun a b => finalConfidence a ≠ finalConfidence b)) :
    generateSignal th st et sess l₁ = generateSignal th st et sess l₂ := by
  have hpf : (l₁.filter (qualifies th)).Perm (l₂.filter (qualifies th)) :=
    hperm.filter _
  have hlen₂ : l₂.length ≤ 50 := by rw [← hperm.length_eq]; exact hlen
  have hq3' : (l₂.filter (qualifies th)).length ≤ 3 := by
    rw [← hpf.length_eq]; exact hq3
  have hv₁ : validSignals th st et sess l₁
      = (l₁.filter (qualifies th)).map (toValidRec st et sess) := by
    rw [validSignals_eq, List.take_of_length_le hlen, List.take_of_length_le hq3]
  have hv₂ : validSignals th st et sess l₂
      = (l₂.filter (qualifies th)).map (toValidRec st et sess) := by
    rw [validSignals_eq, List.take_of_length_le hlen₂, List.take_of_length_le hq3']
  by_cases hnil : l₁.filter (qualifies th) = []
  · have hnil₂ : l₂.filter (qualifies th) = [] := by
      have h := hpf.symm
      rw [hnil] at h
      exact h.eq_nil
    simp [generateSignal, hv₁, hv₂, hnil, hnil₂]
  · have spec : ∀ (F : List Draw) (v : ValidRec) (vs : List ValidRec),
        F.map (toValidRec st et sess) = v :: vs →
        ∃ d ∈ F, toValidRec st et sess d = vs.foldl maxStep v
          ∧ ∀ x ∈ F, finalConfidence x ≤ finalConfidence d := by
      intro F v vs hF
      obtain ⟨i, hi, heq, hmax, _⟩ := foldl_maxStep_spec vs v
      have hmem : (v :: vs).getD i default ∈ v :: vs := by
        rw [List.getD_eq_getElem _ _ hi]
        exact List.getElem_mem hi
      have hmem' : (v :: vs).getD i default ∈ F.map (toValidRec st et sess) := by
        rw [hF]
        exact hmem
      obtain ⟨d, hdF, hd⟩ := List.mem_map.mp hmem'
      refine ⟨d, hdF, hd.trans heq.symm, ?_⟩
      intro x hx
      have hxm : toValidRec st et sess x ∈ v :: vs := by
        rw [← hF]
        exact List.mem_map_of_mem _ hx
      obtain ⟨j, hj, hjx⟩ := List.getElem_of_mem hxm
      have hle := hmax j hj
      rw [List.getD_eq_getElem _ _ hj, hjx, ← hd] at hle
      simpa [toValidRec] using hle
    cases hR₁ : (l₁.filter (qualifies th)).map (toValidRec st et sess) with
    | nil => exact absurd (List.map_eq_nil_iff.mp hR₁) hnil
    | cons v₁ vs₁ =>
      have hnil₂ : l₂.filter (qualifies th) ≠ [] := by
        intro hcon
        have h := hpf
        rw [hcon] at h
        exact hnil h.eq_nil
      cases hR₂ : (l₂.filter (qualifies th)).map (toValidRec st et sess) with
      | nil => exact absurd (List.map_eq_nil_iff.mp hR₂) hnil₂
      | cons v₂ vs₂ =>
        obtain ⟨d₁, hd₁, hm₁, hmax₁⟩ := spec _ v₁ vs₁ hR₁
        obtain ⟨d₂, hd₂, hm₂, hmax₂⟩ := spec _ v₂ vs₂ hR₂
        have hd₂₁ : d₂ ∈ l₁.filter (qualifies th) := hpf.mem_iff.mpr hd₂
        have hd₁₂ : d₁ ∈ l₂.filter (qualifies th) := hpf.mem_iff.mp hd₁
        have heqc : finalConfidence d₁ = finalConfidence d₂ :=
          le_antisymm (hmax₂ d₁ hd₁₂) (hmax₁ d₂ hd₂₁)
        have hdd : d₁ = d₂ := by
          by_contra hne
          exact List.Pairwise.forall (fun _ _ h => h.symm) hdist hd₁ hd₂₁ hne heqc
        simp only [generateSignal, hv₁, hv₂, hR₁, hR₂]
        rw [← hm₁, ← hm₂, hdd]

/-- C3 amended witness: two draws with distinct confidences, swapped. -/
theorem generateSignal_perm_invariant_witness :
    generateSignal 65 "s" "e" "x" [mkDraw "A" 70, mkDraw "B" 90]
      = generateSignal 65 "s" "e" "x" [mkDraw "B" 90, mkDraw "A" 70] :=
  generateSignal_perm_invariant 65 "s" "e" "x"
    [mkDraw "A" 70, mkDraw "B" 90] [mkDraw "B" 90, mkDraw "A" 70]
    (List.Perm.swap (mkDraw "B" 90) (mkDraw "A" 70) [])
    (by decide)
    (le_trans (List.length_filter_le _ _) (by decide))
    (by
      have hqA : qualifies 65 (mkDraw "A" 70) = true := by
        rw [qualifies, finalConfidence_mkDraw _ _ (by decide)]; decide
      have hqB : qualifies 65 (mkDraw "B" 90) = true := by
        rw [qualifies, finalConfidence_mkDraw _ _ (by decide)]; decide
      rw [List.filter_cons_of_pos hqA, List.filter_cons_of_pos hqB, List.filter_nil]
      refine List.Pairwise.cons ?_ (List.pairwise_singleton _ _)
      intro b hb
      rw [List.mem_singleton.mp hb, finalConfidence_mkDraw _ _ (by decide),
        finalConfidence_mkDraw _ _ (by decide)]
      decide)

end SignalGen
